import Mathlib

/-!
Shallow embedding of the planet merge game (TypeScript, matter-js host).

The embedding models the session core of the source: the weighted
anti-repeat bag (`PlanetBag`), the per-step collision resolution
(`collisionStart` handler with `handleMerge` / `triggerBlackHole`),
the per-step lock set, the deadline monitor (`checkDeadline`), the
drop / reset operations, and the persisted-state initialisation.

Modelling conventions:
* JS numbers are modelled as `ℚ` (positions, radii, timestamps) or `ℕ`
  (levels, ids, scores).  The one square root in the source
  (`Vector.magnitude`) is only compared against the constant `0.5`, so
  the embedding compares the squared magnitude against `1/4`.
* matter-js body objects are `Body` values; collision pairs carry the
  body values themselves (the handler reads fields from the captured
  object references, never by lookup in the world), while removal from
  the world is by body id (matter ids are unique).
* Randomness (`Math.random` in the Fisher–Yates shuffle) is an oracle
  `f : ℕ → ℕ`; at loop index `i` the drawn index is `f i % (i + 1)`,
  which ranges over exactly the indices `0..i` the source can draw.
* The `events` field is ghost instrumentation: it records one
  `DomainEvent` per executed merge / mega-merge branch (the spec's
  "domain events", carrying the new level and the score contribution)
  and is read by no operation.
* DOM / audio / rendering side effects are outside the model; the
  visual-effect queues (`flashes`, `scorePops`, `blackHoleEffects`)
  are kept because the spec talks about them.
-/

namespace PlanetGame

/-- `DEADLINE_RATIO = 0.18` from the source. -/
def DEADLINE_RATIO : ℚ := 9 / 50

/-- `DEADLINE_THRESHOLD_MS = 1500` from the source. -/
def DEADLINE_THRESHOLD_MS : ℚ := 1500

/-- `BLACK_HOLE_BONUS = 5000` from the source. -/
def BLACK_HOLE_BONUS : ℕ := 5000

/-- `PLANETS[level].score` from the static table (0 outside 1..11,
where the source table has no entry). -/
def scoreValue : ℕ → ℕ
  | 1 => 10
  | 2 => 20
  | 3 => 40
  | 4 => 80
  | 5 => 160
  | 6 => 320
  | 7 => 640
  | 8 => 1280
  | 9 => 2560
  | 10 => 5120
  | 11 => 10240
  | _ => 0

/-- `PLANETS[level].radius` from the static table. -/
def radiusOf : ℕ → ℚ
  | 1 => 21
  | 2 => 26
  | 3 => 31
  | 4 => 39
  | 5 => 48
  | 6 => 59
  | 7 => 70
  | 8 => 84
  | 9 => 99
  | 10 => 118
  | 11 => 140
  | _ => 0

/-- `NEXT_CANDIDATES = [1, 2, 3, 4, 5]`. -/
def NEXT_CANDIDATES : List ℕ := [1, 2, 3, 4, 5]

/-- `NEXT_WEIGHTS = {1: 6, 2: 6, 3: 5, 4: 4, 5: 3}`. -/
def NEXT_WEIGHTS : ℕ → ℕ
  | 1 => 6
  | 2 => 6
  | 3 => 5
  | 4 => 4
  | 5 => 3
  | _ => 0

/-- The weighted anti-repeat bag (`class PlanetBag`). -/
structure PlanetBag where
  items : List ℕ
  lastItem : Option ℕ
deriving DecidableEq

/-- The multiset `refill` pushes before shuffling: each candidate level
repeated `NEXT_WEIGHTS` times, in candidate order. -/
def baseItems : List ℕ :=
  NEXT_CANDIDATES.flatMap (fun lv => List.replicate (NEXT_WEIGHTS lv) lv)

/-- One Fisher–Yates swap: exchange positions `i` and `j`. -/
def swapIdx (l : List ℕ) (i j : ℕ) : List ℕ :=
  (l.set i (l.getD j 0)).set j (l.getD i 0)

/-- The shuffle loop `for (i = len-1; i > 0; i--)`, counting the loop
variable down; at index `i` the partner is `f i % (i + 1)`. -/
def shuffleGo (f : ℕ → ℕ) : ℕ → List ℕ → List ℕ
  | 0, l => l
  | i + 1, l => shuffleGo f i (swapIdx l (i + 1) (f (i + 1) % (i + 2)))

attribute [irreducible] shuffleGo

/-- `shuffle()` with randomness oracle `f`. -/
def shuffle (f : ℕ → ℕ) (l : List ℕ) : List ℕ :=
  shuffleGo f (l.length - 1) l

/-- `refill()`: rebuild `items` from the weighted multiset, then shuffle.
`lastItem` is untouched. -/
def PlanetBag.refill (f : ℕ → ℕ) (b : PlanetBag) : PlanetBag :=
  { b with items := shuffle f baseItems }

/-- The constructor `new PlanetBag()`: `lastItem = null`, then `refill`. -/
def PlanetBag.mk0 (f : ℕ → ℕ) : PlanetBag :=
  PlanetBag.refill f ⟨[], none⟩

/-- `reset()`: clear `lastItem`, then force a refill. -/
def PlanetBag.reset (f : ℕ → ℕ) (b : PlanetBag) : PlanetBag :=
  PlanetBag.refill f { b with lastItem := none }

/-- The refill-if-empty prelude of `pull()`. -/
def PlanetBag.prePull (f : ℕ → ℕ) (b : PlanetBag) : PlanetBag :=
  if b.items.isEmpty then b.refill f else b

/-- `pull()`: refill when empty; draw from index 1 instead of 0 when the
front entry equals `lastItem` and more than one entry remains; remove
and return the drawn entry, recording it as `lastItem`. -/
def PlanetBag.pull (f : ℕ → ℕ) (b : PlanetBag) : ℕ × PlanetBag :=
  let b' := b.prePull f
  let index : ℕ :=
    if 1 < b'.items.length ∧ some (b'.items.getD 0 0) = b'.lastItem then 1 else 0
  let val := b'.items.getD index 0
  (val, { items := b'.items.eraseIdx index, lastItem := some val })

/-- All pending items of a bag lie in the candidate table. -/
def BagOK (b : PlanetBag) : Prop :=
  ∀ v ∈ b.items, v ∈ NEXT_CANDIDATES

/-- A matter-js body as the collision handler sees it.  `planet = some L`
models `plugin.planet = { level: L }`; walls have `planet = none` and
`isStatic = true`. -/
structure Body where
  id : ℕ
  isStatic : Bool
  planet : Option ℕ
  x : ℚ
  y : ℚ
  vx : ℚ
  vy : ℚ
  radius : ℚ
  dropSePlayed : Bool
deriving DecidableEq

/-- A queued merge flash (timestamps are outside the model). -/
structure Flash where
  x : ℚ
  y : ℚ
deriving DecidableEq

/-- A queued floating score popup. -/
structure ScorePop where
  x : ℚ
  y : ℚ
  gain : ℕ
deriving DecidableEq

/-- A queued black-hole visual effect. -/
structure BlackHoleEffect where
  x : ℚ
  y : ℚ
deriving DecidableEq

/-- Ghost record of the spec's domain events: a merge producing
`newLevel` worth `gain`, or a mega-merge worth `gain`. -/
inductive DomainEvent where
  | merge (newLevel : ℕ) (gain : ℕ)
  | megaMerge (gain : ℕ)
deriving DecidableEq

/-- The mutable session state of the source module. -/
structure GameState where
  bodies : List Body
  nextId : ℕ
  score : ℕ
  hiScore : ℕ
  discovered : Finset ℕ
  locked : Finset ℕ
  currentLevel : ℕ
  nextLevel : ℕ
  bag : PlanetBag
  isGameOver : Bool
  dlStart : Option ℚ
  flashes : List Flash
  scorePops : List ScorePop
  blackHoleEffects : List BlackHoleEffect
  events : List DomainEvent
deriving DecidableEq

/-- Squared relative velocity of a pair; the source compares
`Vector.magnitude(sub(vA, vB)) > 0.5`, i.e. squared magnitude `> 1/4`. -/
def relVelSq (a b : Body) : ℚ :=
  (a.vx - b.vx) ^ 2 + (a.vy - b.vy) ^ 2

/-- Set `plugin.dropSePlayed = true` on the world body with this id. -/
def setDropSePlayed (st : GameState) (i : ℕ) : GameState :=
  { st with
    bodies := st.bodies.map fun c =>
      if c.id = i then { c with dropSePlayed := true } else c }

/-- The boundary-contact branch of the `collisionStart` handler: when one
body is static, the planet body of the pair (preferring `bodyA`) gets its
one-shot drop sound, gated by the relative-velocity threshold. -/
def soundPart (st : GameState) (a b : Body) : GameState :=
  if a.isStatic || b.isStatic then
    match (if a.planet.isSome then some a else if b.planet.isSome then some b else none) with
    | some p =>
      if ¬ p.dropSePlayed ∧ relVelSq a b > 1 / 4 then setDropSePlayed st p.id else st
    | none => st
  else st

/-- `handleMerge(bodyA, bodyB)`: remove both bodies, spawn one body of the
next level at the arithmetic midpoint (with `dropSePlayed` preset true),
mark the level discovered, add its score value (raising `hiScore`), and
queue a flash and a score popup. -/
def handleMerge (st : GameState) (a b : Body) : GameState :=
  let lv := a.planet.getD 0
  let newLv := lv + 1
  let x := (a.x + b.x) / 2
  let y := (a.y + b.y) / 2
  let bodies := st.bodies.filter fun c => decide (c.id ≠ a.id ∧ c.id ≠ b.id)
  let nb : Body :=
    { id := st.nextId, isStatic := false, planet := some newLv,
      x := x, y := y, vx := 0, vy := 0, radius := radiusOf newLv,
      dropSePlayed := true }
  let score' := st.score + scoreValue newLv
  { st with
    bodies := bodies ++ [nb],
    nextId := st.nextId + 1,
    discovered := insert newLv st.discovered,
    score := score',
    hiScore := if st.hiScore < score' then score' else st.hiScore,
    flashes := st.flashes ++ [⟨x, y⟩],
    scorePops := st.scorePops ++ [⟨x, y, scoreValue newLv⟩],
    events := st.events ++ [.merge newLv (scoreValue newLv)] }

/-- `triggerBlackHole(x, y)`: remove every non-static planet body from the
world, add the fixed bonus (raising `hiScore`), and queue the black-hole
effect and its score popup. -/
def triggerBlackHole (st : GameState) (x y : ℚ) : GameState :=
  let bodies := st.bodies.filter fun c => !(!c.isStatic && c.planet.isSome)
  let score' := st.score + BLACK_HOLE_BONUS
  { st with
    bodies := bodies,
    score := score',
    hiScore := if st.hiScore < score' then score' else st.hiScore,
    blackHoleEffects := st.blackHoleEffects ++ [⟨x, y⟩],
    scorePops := st.scorePops ++ [⟨x, y, BLACK_HOLE_BONUS⟩],
    events := st.events ++ [.megaMerge BLACK_HOLE_BONUS] }

/-- One iteration of `event.pairs.forEach` in the `collisionStart`
handler: the boundary-sound branch, then the level-11 mega-merge branch,
then the equal-level merge branch, each gated by the per-step lock set. -/
def processPair (st : GameState) (p : Body × Body) : GameState :=
  let a := p.1
  let b := p.2
  let st := soundPart st a b
  if a.planet.isSome ∧ b.planet.isSome then
    if a.planet = some 11 ∧ b.planet = some 11 then
      if a.id ∉ st.locked ∧ b.id ∉ st.locked then
        triggerBlackHole
          { st with locked := insert b.id (insert a.id st.locked) }
          ((a.x + b.x) / 2) ((a.y + b.y) / 2)
      else st
    else if a.planet = b.planet ∧ a.planet.getD 0 < 11 then
      if a.id ∉ st.locked ∧ b.id ∉ st.locked then
        handleMerge { st with locked := insert b.id (insert a.id st.locked) } a b
      else st
    else st
  else st

/-- The whole `collisionStart` handler for one step's pair list. -/
def processPairs (st : GameState) (pairs : List (Body × Body)) : GameState :=
  pairs.foldl processPair st

/-- The per-body violation test of `checkDeadline`: live planet body whose
top edge is above the deadline line and which is below the spawn band. -/
def deadlineViolation (h : ℚ) (bodies : List Body) : Bool :=
  bodies.any fun b =>
    !b.isStatic && b.planet.isSome &&
      decide (b.y - b.radius < h * DEADLINE_RATIO) && decide (b.y > 120)

/-- `checkDeadline` on explicit state `(gameOver, dlStart)`; `h` is the
board height, `now` the step's `performance.now()`.  NOTE the source
guard is the JS falsy test `if (!deadLineViolatedStartTime)`, which also
treats a stored timestamp of exactly `0` as "no timer running". -/
def checkDeadlineCore (h : ℚ) (bodies : List Body) (now : ℚ)
    (gameOver : Bool) (dlStart : Option ℚ) : Bool × Option ℚ :=
  if gameOver then (gameOver, dlStart)
  else if deadlineViolation h bodies then
    if dlStart = none ∨ dlStart = some 0 then (false, some now)
    else if (dlStart.getD 0) + DEADLINE_THRESHOLD_MS < now then (true, dlStart)
    else (false, dlStart)
  else (false, none)

/-- One simulation step of the deadline monitor alone: the step supplies
the world's bodies and the step's `performance.now()`. -/
def dlStep (h : ℚ) (s : Bool × Option ℚ) (step : List Body × ℚ) : Bool × Option ℚ :=
  checkDeadlineCore h step.1 step.2 s.1 s.2

/-- A run of consecutive deadline-monitor steps. -/
def dlRun (h : ℚ) (s : Bool × Option ℚ) (steps : List (List Body × ℚ)) :
    Bool × Option ℚ :=
  steps.foldl (dlStep h) s

/-- The `afterUpdate` handler: clear the lock set unconditionally, then
run the deadline check. -/
def afterUpdate (h now : ℚ) (st : GameState) : GameState :=
  let st' := { st with locked := (∅ : Finset ℕ) }
  let r := checkDeadlineCore h st'.bodies now st'.isGameOver st'.dlStart
  { st' with isGameOver := r.1, dlStart := r.2 }

/-- `dropPlanet()`: discover the current level, spawn the current piece at
the drop point (with `dropSePlayed` false), shift current ← next, and
draw a new next level from the bag.  The drop cooldown timer is outside
the model. -/
def dropPlanet (f : ℕ → ℕ) (dropX : ℚ) (st : GameState) : GameState :=
  let nb : Body :=
    { id := st.nextId, isStatic := false, planet := some st.currentLevel,
      x := dropX, y := 50, vx := 0, vy := 0,
      radius := radiusOf st.currentLevel, dropSePlayed := false }
  let r := st.bag.pull f
  { st with
    bodies := st.bodies ++ [nb],
    nextId := st.nextId + 1,
    discovered := insert st.currentLevel st.discovered,
    currentLevel := st.nextLevel,
    nextLevel := r.1,
    bag := r.2 }

/-- `resetGame()`: remove all non-static bodies, zero the score, clear
the deadline timer and game-over flag, clear the black-hole queue, reset
the bag, draw a fresh next/current pair, and empty the discovery set.
The source does NOT touch `flashes`, `scorePops` or `hiScore`. -/
def resetGame (f : ℕ → ℕ) (st : GameState) : GameState :=
  let bodies := st.bodies.filter fun b => b.isStatic
  let bag0 := st.bag.reset f
  let r1 := bag0.pull f
  let r2 := r1.2.pull f
  { st with
    bodies := bodies,
    score := 0,
    dlStart := none,
    isGameOver := false,
    blackHoleEffects := [],
    bag := r2.2,
    nextLevel := r1.1,
    currentLevel := r2.1,
    discovered := (∅ : Finset ℕ) }

/-- Session start (`init()` plus the module-level initialisers): fresh
bag, `nextLevel` then `currentLevel` pulled from it, everything else at
its initial value.  `hs` is the loaded `hiScore`. -/
def initGame (f g g' : ℕ → ℕ) (hs : ℕ) : GameState :=
  let bag0 := PlanetBag.mk0 f
  let r1 := bag0.pull g
  let r2 := r1.2.pull g'
  { bodies := [], nextId := 1, score := 0, hiScore := hs,
    discovered := (∅ : Finset ℕ), locked := (∅ : Finset ℕ),
    currentLevel := r2.1, nextLevel := r1.1, bag := r2.2,
    isGameOver := false, dlStart := none,
    flashes := [], scorePops := [], blackHoleEffects := [], events := [] }

/-- The session states reachable through the modelled operations. -/
inductive Reach : GameState → Prop where
  | init : ∀ f g g' hs, Reach (initGame f g g' hs)
  | drop : ∀ f x st, Reach st → Reach (dropPlanet f x st)
  | reset : ∀ f st, Reach st → Reach (resetGame f st)
  | stepPairs : ∀ pairs st, Reach st → Reach (processPairs st pairs)
  | stepAfter : ∀ h now st, Reach st → Reach (afterUpdate h now st)

/-- JavaScript `parseInt(s)` (radix unspecified): skip leading
whitespace, optional sign, optional `0x`/`0X` prefix selecting base 16,
then the maximal digit prefix; `none` models the `NaN` result when no
digit is consumed. -/
def digitVal (base : ℕ) (c : Char) : Option ℕ :=
  if '0' ≤ c ∧ c ≤ '9' ∧ c.toNat - '0'.toNat < base then some (c.toNat - '0'.toNat)
  else if base = 16 ∧ 'a' ≤ c ∧ c ≤ 'f' then some (c.toNat - 'a'.toNat + 10)
  else if base = 16 ∧ 'A' ≤ c ∧ c ≤ 'F' then some (c.toNat - 'A'.toNat + 10)
  else none

/-- Accumulate the maximal leading digit run. -/
def parseDigits (base : ℕ) : List Char → Option ℕ → Option ℕ
  | [], acc => acc
  | c :: cs, acc =>
    match digitVal base c with
    | some d => parseDigits base cs (some (acc.getD 0 * base + d))
    | none => acc

/-- `parseInt` itself; see `digitVal`. -/
def jsParseInt (s : String) : Option ℤ :=
  let cs := s.toList.dropWhile fun c => c = ' ' ∨ c = '\t' ∨ c = '\n' ∨ c = '\r'
  let sc : ℤ × List Char :=
    match cs with
    | '-' :: rest => (-1, rest)
    | '+' :: rest => (1, rest)
    | _ => (1, cs)
  let bc : ℕ × List Char :=
    match sc.2 with
    | '0' :: 'x' :: rest => (16, rest)
    | '0' :: 'X' :: rest => (16, rest)
    | _ => (10, sc.2)
  (parseDigits bc.1 bc.2 none).map fun n => sc.1 * (n : ℤ)

/-- `parseInt(localStorage.getItem('hiScore') || '0')`: `null` and the
empty string are falsy, anything else is parsed as stored. -/
def loadHiScore (stored : Option String) : Option ℤ :=
  jsParseInt
    (match stored with
     | none => "0"
     | some s => if s = "" then "0" else s)

/-- The `discoveredLevels` initialiser of the source: `new Set<number>()`
— the persistent store is NOT consulted (the sibling variant seeds
`new Set([1])`, likewise without reading the store). -/
def loadDiscovered (_stored : Option String) : Finset ℕ :=
  (∅ : Finset ℕ)

/-- The branch condition under which `processPair` acts on a pair (both
bodies are planets, the levels match a merge or mega-merge, and neither
body is locked). -/
def pairEligible (locked : Finset ℕ) (p : Body × Body) : Bool :=
  p.1.planet.isSome && p.2.planet.isSome &&
    (decide (p.1.planet = some 11 ∧ p.2.planet = some 11) ||
      decide (p.1.planet = p.2.planet ∧ p.1.planet.getD 0 < 11)) &&
    decide (p.1.id ∉ locked) && decide (p.2.id ∉ locked)

/-- The domain event a pair emits when it acts. -/
def eventOf (p : Body × Body) : DomainEvent :=
  if p.1.planet = some 11 ∧ p.2.planet = some 11 then .megaMerge BLACK_HOLE_BONUS
  else .merge (p.1.planet.getD 0 + 1) (scoreValue (p.1.planet.getD 0 + 1))

/-- The domain events one pair contributes, relative to a lock set. -/
def pairEvents (locked : Finset ℕ) (p : Body × Body) : List DomainEvent :=
  if pairEligible locked p then [eventOf p] else []

/-- Handle-disjointness of two collision pairs. -/
def DisjointPairs (p q : Body × Body) : Prop :=
  p.1.id ≠ q.1.id ∧ p.1.id ≠ q.2.id ∧ p.2.id ≠ q.1.id ∧ p.2.id ≠ q.2.id

instance : DecidableRel DisjointPairs := fun p q => by
  unfold DisjointPairs
  infer_instance

/-! Concrete fixtures used by the counterexample / evaluation theorems. -/

/-- A level-11 sun. -/
def sunA : Body := ⟨1, false, some 11, 0, 0, 0, 0, 140, true⟩

/-- A second level-11 sun. -/
def sunB : Body := ⟨2, false, some 11, 10, 0, 0, 0, 140, true⟩

/-- A level-3 piece. -/
def mercA : Body := ⟨3, false, some 3, 20, 30, 0, 0, 31, true⟩

/-- A second level-3 piece. -/
def mercB : Body := ⟨4, false, some 3, 30, 30, 0, 0, 31, true⟩

/-- A third level-3 piece. -/
def mercC : Body := ⟨8, false, some 3, 40, 30, 0, 0, 31, true⟩

/-- A fourth level-3 piece. -/
def mercD : Body := ⟨9, false, some 3, 50, 30, 0, 0, 31, true⟩

/-- A level-5 piece. -/
def venusA : Body := ⟨5, false, some 5, 40, 60, 0, 0, 48, true⟩

/-- A second level-5 piece. -/
def venusB : Body := ⟨6, false, some 5, 60, 60, 0, 0, 48, true⟩

/-- A session state holding exactly the given bodies, everything else
fresh. -/
def baseState (bs : List Body) : GameState :=
  { bodies := bs, nextId := 100, score := 0, hiScore := 0,
    discovered := (∅ : Finset ℕ), locked := (∅ : Finset ℕ),
    currentLevel := 1, nextLevel := 1, bag := ⟨[1], none⟩,
    isGameOver := false, dlStart := none,
    flashes := [], scorePops := [], blackHoleEffects := [], events := [] }

/-- A live level-2 piece below the spawn band whose top edge reaches
above the deadline line of a height-1000 board. -/
def highPiece : Body := ⟨7, false, some 2, 100, 150, 0, 0, 26, true⟩

/-- A session state like `baseState` but with body id 3 already in the
per-step lock set. -/
def lockedState : GameState :=
  { baseState [mercA, mercB] with locked := {3} }

/-- A game-over state with pending flash / score-pop / black-hole
effects. -/
def gameOverState : GameState :=
  { baseState [] with
    isGameOver := true,
    scorePops := [⟨1, 2, 80⟩], flashes := [⟨1, 2⟩],
    blackHoleEffects := [⟨0, 0⟩], hiScore := 4242 }

end PlanetGame

namespace PlanetGame

/-- C2 (code bug evaluation): in the step whose pair list is
`[(sunA, sunB), (mercA, mercB)]`, the mega-merge removes all four live
pieces, but the later pair of the two already-removed level-3 bodies is
not in the lock set, so it is still processed as a merge: the step ends
with one live (level-4) piece instead of zero, and the score is the
mega-bonus plus a per-piece merge award, contradicting the claim. -/
theorem megaMerge_ghost_pair_breaks_board_clear :
    ((processPairs (baseState [sunA, sunB, mercA, mercB])
        [(sunA, sunB), (mercA, mercB)]).bodies.filter fun b =>
          !b.isStatic && b.planet.isSome).length = 1 ∧
      (processPairs (baseState [sunA, sunB, mercA, mercB])
        [(sunA, sunB), (mercA, mercB)]).score =
          BLACK_HOLE_BONUS + scoreValue 4 ∧
      (processPairs (baseState [sunA, sunB, mercA, mercB])
        [(sunA, sunB), (mercA, mercB)]).events =
          [.megaMerge BLACK_HOLE_BONUS, .merge 4 (scoreValue 4)] := by
  decide

/-- C4 (code bug evaluation): a pair both of whose bodies were removed
earlier in the same step by the mega-merge is NOT a no-op — the resolver
never re-validates liveness, so it spawns a level-6 body, adds its score
value, and marks level 6 discovered. -/
theorem stale_pair_after_blackhole_not_noop :
    (processPairs (baseState [sunA, sunB, venusA, venusB])
        [(sunA, sunB), (venusA, venusB)]).score =
          BLACK_HOLE_BONUS + scoreValue 6 ∧
      ((processPairs (baseState [sunA, sunB, venusA, venusB])
        [(sunA, sunB), (venusA, venusB)]).bodies.filter fun b =>
          b.planet = some 6).length = 1 ∧
      (processPairs (baseState [sunA, sunB, venusA, venusB])
        [(sunA, sunB), (venusA, venusB)]).discovered = {6} := by
  decide

/-- Setting a position to its own value is the identity. -/
lemma set_getD_self (l : List ℕ) (j : ℕ) : l.set j (l.getD j 0) = l := by
  induction l generalizing j with
  | nil => cases j <;> rfl
  | cons a t ih =>
    cases j with
    | zero => rfl
    | succ k => simpa [List.set, List.getD] using ih k

/-- A self-swap is the identity. -/
lemma swapIdx_self (l : List ℕ) (j : ℕ) : swapIdx l j j = l := by
  unfold swapIdx
  rw [List.set_set, set_getD_self]

/-- With the identity oracle, every Fisher–Yates step swaps a slot with
itself, so the shuffle is the identity permutation. -/
lemma shuffleGo_id (i : ℕ) (l : List ℕ) : shuffleGo id i l = l := by
  induction i generalizing l with
  | zero => rw [shuffleGo]
  | succ k ih =>
    rw [shuffleGo, id_eq, Nat.mod_eq_of_lt (by omega), swapIdx_self, ih]

/-- `shuffle` with the identity oracle returns its input. -/
lemma shuffle_id (l : List ℕ) : shuffle id l = l := shuffleGo_id _ l

/-- A fresh bag built with the identity oracle holds the unshuffled
weighted multiset. -/
lemma mk0_id : PlanetBag.mk0 id = ⟨baseItems, none⟩ := by
  unfold PlanetBag.mk0 PlanetBag.refill
  rw [shuffle_id]

/-- C5 (counterexample): with the candidate table holding five distinct
levels, a fresh bag whose shuffle oracle is the identity permutation
returns level 1 on both of its first two pulls — the anti-repeat rule
only skips the front slot and draws the (equal) second slot. -/
theorem bag_consecutive_repeat_cex :
    ((PlanetBag.mk0 id).pull id).1 = 1 ∧
      (((PlanetBag.mk0 id).pull id).2.pull id).1 = 1 ∧
      NEXT_CANDIDATES.dedup.length = 5 := by
  rw [mk0_id]
  decide

/-- `prePull` never touches the anti-repeat memory. -/
lemma prePull_lastItem (f : ℕ → ℕ) (b : PlanetBag) :
    (b.prePull f).lastItem = b.lastItem := by
  unfold PlanetBag.prePull PlanetBag.refill
  split <;> rfl

/-- The shuffle loop preserves the length of the list. -/
lemma shuffleGo_length (f : ℕ → ℕ) (i : ℕ) (l : List ℕ) :
    (shuffleGo f i l).length = l.length := by
  induction i generalizing l with
  | zero => rw [shuffleGo]
  | succ k ih =>
    rw [shuffleGo, ih]
    unfold swapIdx
    simp [List.length_set]

/-- `shuffle` preserves the length of the list. -/
lemma shuffle_length (f : ℕ → ℕ) (l : List ℕ) :
    (shuffle f l).length = l.length :=
  shuffleGo_length f _ l

/-- After the refill-if-empty prelude the pending sequence is nonempty:
a refill always supplies the 24-element weighted multiset. -/
lemma prePull_ne_nil (f : ℕ → ℕ) (b : PlanetBag) :
    (b.prePull f).items ≠ [] := by
  unfold PlanetBag.prePull
  split
  · unfold PlanetBag.refill
    intro h
    have h2 := congrArg List.length h
    rw [shuffle_length] at h2
    exact absurd h2 (by decide)
  · next hemp =>
    simpa [List.isEmpty_iff] using hemp

/-- A pull records the drawn value as `lastItem`. -/
lemma pull_lastItem (f : ℕ → ℕ) (b : PlanetBag) :
    (b.pull f).2.lastItem = some (b.pull f).1 :=
  rfl

/-- C5 (amended): two consecutive pulls return the same level only when,
at the moment of the second pull (after any refill), the pending
sequence either consists of a single item, or begins with two copies of
the level just drawn — the anti-repeat check inspects only the front
slot, and cannot apply at all to a final single item. -/
theorem bag_antirepeat_amended (f g : ℕ → ℕ) (b : PlanetBag)
    (hrep : ((b.pull f).2.pull g).1 = (b.pull f).1) :
    ((b.pull f).2.prePull g).items.length = 1 ∨
      (2 ≤ ((b.pull f).2.prePull g).items.length ∧
        ((b.pull f).2.prePull g).items.getD 0 0 = (b.pull f).1 ∧
        ((b.pull f).2.prePull g).items.getD 1 0 = (b.pull f).1) := by
  set c := (b.pull f).2 with hc
  set v := (b.pull f).1 with hv
  have hlast : c.lastItem = some v := pull_lastItem f b
  set d := c.prePull g with hd
  have hdl : d.lastItem = some v := by rw [hd, prePull_lastItem, hlast]
  have hne : d.items ≠ [] := prePull_ne_nil g c
  by_cases hcond : 1 < d.items.length ∧ some (d.items.getD 0 0) = d.lastItem
  · have h1 : (c.pull g).1 = d.items.getD 1 0 := by
      simp only [PlanetBag.pull, ← hd]
      rw [if_pos hcond]
    right
    refine ⟨by omega, ?_, ?_⟩
    · have := hcond.2
      rw [hdl] at this
      exact Option.some_injective _ this
    · rw [← h1, hrep]
  · have h0 : (c.pull g).1 = d.items.getD 0 0 := by
      simp only [PlanetBag.pull, ← hd]
      rw [if_neg hcond]
    have hv0 : d.items.getD 0 0 = v := by rw [← h0, hrep]
    by_cases hlen : 1 < d.items.length
    · exact absurd ⟨hlen, by rw [hv0, hdl]⟩ hcond
    · left
      have : d.items.length ≠ 0 := fun h => hne (List.length_eq_zero.mp h)
      omega

/-- Witness for `bag_antirepeat_amended`: from the bag state
`⟨[1,1,1], some 2⟩` the next two pulls both return 1, and the theorem's
disjunction holds at that point. -/
theorem bag_antirepeat_amended_wit :
    (((⟨[1, 1, 1], some 2⟩ : PlanetBag).pull id).2.prePull id).items.length = 1 ∨
      (2 ≤ (((⟨[1, 1, 1], some 2⟩ : PlanetBag).pull id).2.prePull id).items.length ∧
        (((⟨[1, 1, 1], some 2⟩ : PlanetBag).pull id).2.prePull id).items.getD 0 0 =
          ((⟨[1, 1, 1], some 2⟩ : PlanetBag).pull id).1 ∧
        (((⟨[1, 1, 1], some 2⟩ : PlanetBag).pull id).2.prePull id).items.getD 1 0 =
          ((⟨[1, 1, 1], some 2⟩ : PlanetBag).pull id).1) :=
  bag_antirepeat_amended id id ⟨[1, 1, 1], some 2⟩ (by decide)

/-- C8 (counterexample): `resetGame` clears the black-hole queue only;
the flash and score-pop queues survive a reset, so "all transient
visual-effect queues cleared" fails. -/
theorem reset_keeps_scorePops_cex :
    gameOverState.isGameOver = true ∧
      (resetGame id gameOverState).scorePops = [⟨1, 2, 80⟩] ∧
      (resetGame id gameOverState).flashes = [⟨1, 2⟩] := by
  decide

/-- C9 (counterexample): the discovery set is NOT read from the store —
a stored `"[3]"` still initialises to the empty set — and a corrupt
`hiScore` string parses to `NaN` (`none`), not to the default `0`. -/
theorem persistence_load_cex :
    loadDiscovered (some "[3]") = (∅ : Finset ℕ) ∧
      loadHiScore (some "abc") = none := by
  exact ⟨rfl, by decide⟩

/-- C9 (amended): at session start the discovery set is always the fixed
default (empty), whatever the store holds, and `hiScore` degrades to `0`
when the stored value is missing or empty (the falsy cases the source's
`|| '0'` covers). -/
theorem persistence_load_amended (stored : Option String) :
    loadDiscovered stored = (∅ : Finset ℕ) ∧
      loadHiScore none = some 0 ∧ loadHiScore (some "") = some 0 := by
  exact ⟨rfl, by decide, by decide⟩


/-- C1: a collision of two distinct live pieces of equal level `L < 11`,
neither locked this step, removes exactly those two bodies, spawns
exactly one piece of level `L + 1` at the arithmetic midpoint of the two
positions with its drop-sound flag preset true, and adds exactly
`scoreValue (L + 1)` to the score. -/
theorem merge_two_equal_pieces (st : GameState) (a b : Body) (L : ℕ)
    (hA : a ∈ st.bodies) (hB : b ∈ st.bodies) (hid : a.id ≠ b.id)
    (hpa : a.planet = some L) (hpb : b.planet = some L) (hL : L < 11)
    (hsa : a.isStatic = false) (hsb : b.isStatic = false)
    (hla : a.id ∉ st.locked) (hlb : b.id ∉ st.locked)
    (hnd : (st.bodies.map Body.id).Nodup) :
    ∃ nb : Body,
      (processPair st (a, b)).bodies =
        (st.bodies.filter fun c => decide (c.id ≠ a.id ∧ c.id ≠ b.id)) ++ [nb] ∧
      nb.planet = some (L + 1) ∧
      nb.x = (a.x + b.x) / 2 ∧ nb.y = (a.y + b.y) / 2 ∧
      nb.dropSePlayed = true ∧
      (processPair st (a, b)).score = st.score + scoreValue (L + 1) ∧
      (st.bodies.filter fun c => decide (c.id = a.id ∨ c.id = b.id)).Perm [a, b] := by
  have hsp : soundPart st a b = st := by
    simp [soundPart, hsa, hsb]
  have hred : processPair st (a, b) =
      handleMerge { st with locked := insert b.id (insert a.id st.locked) } a b := by
    simp only [processPair]
    rw [hsp]
    rw [if_pos ⟨by simp [hpa], by simp [hpb]⟩]
    rw [if_neg (by simp [hpa]; omega)]
    rw [if_pos ⟨hpa.trans hpb.symm, by simp [hpa]; omega⟩]
    rw [if_pos ⟨hla, hlb⟩]
  refine ⟨_, by rw [hred]; rfl, ?_, rfl, rfl, rfl, ?_, ?_⟩
  · show some (a.planet.getD 0 + 1) = some (L + 1)
    rw [hpa]
    rfl
  · rw [hred]
    show st.score + scoreValue (a.planet.getD 0 + 1) = st.score + scoreValue (L + 1)
    rw [hpa]
    rfl
  · have hndb : st.bodies.Nodup := List.Nodup.of_map _ hnd
    have hab : a ≠ b := fun h => hid (congrArg Body.id h)
    have hsub : ∀ c ∈ st.bodies.filter fun c => decide (c.id = a.id ∨ c.id = b.id),
        c = a ∨ c = b := by
      intro c hc
      have hcm := (List.mem_filter.mp hc).1
      have hcp : c.id = a.id ∨ c.id = b.id := by
        have := (List.mem_filter.mp hc).2
        exact of_decide_eq_true this
      rcases hcp with h | h
      · exact Or.inl (List.inj_on_of_nodup_map hnd hcm hA h)
      · exact Or.inr (List.inj_on_of_nodup_map hnd hcm hB h)
    have hma : a ∈ st.bodies.filter fun c => decide (c.id = a.id ∨ c.id = b.id) :=
      List.mem_filter.mpr ⟨hA, by simp⟩
    have hmb : b ∈ st.bodies.filter fun c => decide (c.id = a.id ∨ c.id = b.id) :=
      List.mem_filter.mpr ⟨hB, by simp⟩
    have hndf := hndb.filter fun c => decide (c.id = a.id ∨ c.id = b.id)
    have h1 : List.Subperm [a, b]
        (st.bodies.filter fun c => decide (c.id = a.id ∨ c.id = b.id)) := by
      refine List.subperm_of_subset (by simp [hab]) ?_
      intro x hx
      rcases List.mem_pair.mp hx with rfl | rfl
      · exact hma
      · exact hmb
    have h2 : List.Subperm
        (st.bodies.filter fun c => decide (c.id = a.id ∨ c.id = b.id)) [a, b] := by
      refine List.subperm_of_subset hndf ?_
      intro x hx
      rcases hsub x hx with rfl | rfl <;> simp
    exact h2.antisymm h1

/-- Witness for `merge_two_equal_pieces`: two concrete level-3 pieces. -/
theorem merge_two_equal_pieces_wit :
    ∃ nb : Body,
      (processPair (baseState [mercA, mercB]) (mercA, mercB)).bodies =
        ((baseState [mercA, mercB]).bodies.filter fun c =>
          decide (c.id ≠ mercA.id ∧ c.id ≠ mercB.id)) ++ [nb] ∧
      nb.planet = some (3 + 1) ∧
      nb.x = (mercA.x + mercB.x) / 2 ∧ nb.y = (mercA.y + mercB.y) / 2 ∧
      nb.dropSePlayed = true ∧
      (processPair (baseState [mercA, mercB]) (mercA, mercB)).score =
        (baseState [mercA, mercB]).score + scoreValue (3 + 1) ∧
      ((baseState [mercA, mercB]).bodies.filter fun c =>
        decide (c.id = mercA.id ∨ c.id = mercB.id)).Perm [mercA, mercB] :=
  merge_two_equal_pieces (baseState [mercA, mercB]) mercA mercB 3
    (by decide) (by decide) (by decide) rfl rfl (by decide)
    rfl rfl (by decide) (by decide) (by decide)

/-- The boundary-sound branch either leaves the state alone or only
flips one drop-sound flag. -/
lemma soundPart_cases (st : GameState) (a b : Body) :
    soundPart st a b = st ∨ ∃ i, soundPart st a b = setDropSePlayed st i := by
  unfold soundPart
  split
  · split
    · split
      · exact Or.inr ⟨_, rfl⟩
      · exact Or.inl rfl
    · exact Or.inl rfl
  · exact Or.inl rfl

/-- The boundary-sound branch never touches the lock set. -/
lemma soundPart_locked (st : GameState) (a b : Body) :
    (soundPart st a b).locked = st.locked := by
  rcases soundPart_cases st a b with h | ⟨i, h⟩
  · rw [h]
  · rw [h]
    rfl

/-- Processing one pair only ever adds to the lock set. -/
lemma processPair_locked_mono (st : GameState) (p : Body × Body) :
    st.locked ⊆ (processPair st p).locked := by
  simp only [processPair]
  have hs := soundPart_locked st p.1 p.2
  split
  · split
    · split
      · show st.locked ⊆ (triggerBlackHole _ _ _).locked
        show st.locked ⊆ insert p.2.id (insert p.1.id (soundPart st p.1 p.2).locked)
        rw [hs]
        exact fun x hx => Finset.mem_insert_of_mem (Finset.mem_insert_of_mem hx)
      · rw [hs]
    · split
      · split
        · show st.locked ⊆ insert p.2.id (insert p.1.id (soundPart st p.1 p.2).locked)
          rw [hs]
          exact fun x hx => Finset.mem_insert_of_mem (Finset.mem_insert_of_mem hx)
        · rw [hs]
      · rw [hs]
  · rw [hs]

/-- A pair that acts locks both of its body ids. -/
lemma processPair_locks_acting (st : GameState) (p : Body × Body)
    (h : pairEligible st.locked p = true) :
    p.1.id ∈ (processPair st p).locked ∧ p.2.id ∈ (processPair st p).locked := by
  have hs := soundPart_locked st p.1 p.2
  simp only [pairEligible, Bool.and_eq_true, decide_eq_true_eq, Bool.or_eq_true] at h
  obtain ⟨⟨⟨⟨h1, h2⟩, h3⟩, h4⟩, h5⟩ := h
  simp only [processPair]
  rw [if_pos ⟨h1, h2⟩]
  rcases h3 with h11 | heq
  · rw [if_pos h11, if_pos (by rw [hs]; exact ⟨h4, h5⟩)]
    constructor
    · show p.1.id ∈ insert p.2.id (insert p.1.id (soundPart st p.1 p.2).locked)
      exact Finset.mem_insert_of_mem (Finset.mem_insert_self _ _)
    · exact Finset.mem_insert_self _ _
  · by_cases h11 : p.1.planet = some 11 ∧ p.2.planet = some 11
    · rw [if_pos h11, if_pos (by rw [hs]; exact ⟨h4, h5⟩)]
      constructor
      · exact Finset.mem_insert_of_mem (Finset.mem_insert_self _ _)
      · exact Finset.mem_insert_self _ _
    · rw [if_neg h11, if_pos heq, if_pos (by rw [hs]; exact ⟨h4, h5⟩)]
      constructor
      · show p.1.id ∈ insert p.2.id (insert p.1.id (soundPart st p.1 p.2).locked)
        exact Finset.mem_insert_of_mem (Finset.mem_insert_self _ _)
      · exact Finset.mem_insert_self _ _

/-- Processing a pair list only ever adds to the lock set. -/
lemma processPairs_locked_mono (pairs : List (Body × Body)) (st : GameState) :
    st.locked ⊆ (processPairs st pairs).locked := by
  induction pairs generalizing st with
  | nil => exact fun x hx => hx
  | cons p rest ih =>
    exact (processPair_locked_mono st p).trans (ih (processPair st p))

/-- Pair lists process left to right. -/
lemma processPairs_append (st : GameState) (l₁ l₂ : List (Body × Body)) :
    processPairs st (l₁ ++ l₂) = processPairs (processPairs st l₁) l₂ :=
  List.foldl_append processPair st l₁ l₂

/-- C3: (1) a planet-planet pair with either body in the per-step lock
set produces no state change at all; (2) two pairs that both act within
one step's pair list (the first after prefix `l₁`, the second after
prefix `l₁ ++ p :: l₂`) involve four pairwise distinct body ids, so each
handle participates in at most one merge or mega-merge outcome; (3) the
`afterUpdate` handler clears the lock set unconditionally. -/
theorem per_step_lock_discipline :
    (∀ (st : GameState) (a b : Body), a.planet.isSome = true → b.planet.isSome = true →
        a.isStatic = false → b.isStatic = false →
        (a.id ∈ st.locked ∨ b.id ∈ st.locked) →
        processPair st (a, b) = st) ∧
    (∀ (st : GameState) (l₁ l₂ : List (Body × Body)) (p q : Body × Body),
        pairEligible (processPairs st l₁).locked p = true →
        pairEligible (processPairs st (l₁ ++ p :: l₂)).locked q = true →
        DisjointPairs p q) ∧
    (∀ (h now : ℚ) (st : GameState), (afterUpdate h now st).locked = ∅) := by
  refine ⟨?_, ?_, ?_⟩
  · intro st a b hpa hpb hsa hsb hlock
    have hsp : soundPart st a b = st := by simp [soundPart, hsa, hsb]
    have hnl : ¬(a.id ∉ st.locked ∧ b.id ∉ st.locked) := by tauto
    simp only [processPair]
    rw [hsp, if_pos ⟨hpa, hpb⟩]
    by_cases h11 : a.planet = some 11 ∧ b.planet = some 11
    · rw [if_pos h11, if_neg hnl]
    · rw [if_neg h11]
      by_cases heq : a.planet = b.planet ∧ a.planet.getD 0 < 11
      · rw [if_pos heq, if_neg hnl]
      · rw [if_neg heq]
  · intro st l₁ l₂ p q hp hq
    set st₁ := processPairs st l₁ with hst₁
    have hacts := processPair_locks_acting st₁ p hp
    have hdecomp : processPairs st (l₁ ++ p :: l₂) = processPairs (processPair st₁ p) l₂ := by
      rw [processPairs_append]
      rfl
    have hmono := processPairs_locked_mono l₂ (processPair st₁ p)
    have h1 : p.1.id ∈ (processPairs st (l₁ ++ p :: l₂)).locked := by
      rw [hdecomp]
      exact hmono hacts.1
    have h2 : p.2.id ∈ (processPairs st (l₁ ++ p :: l₂)).locked := by
      rw [hdecomp]
      exact hmono hacts.2
    simp only [pairEligible, Bool.and_eq_true, decide_eq_true_eq] at hq
    obtain ⟨⟨⟨⟨_, _⟩, _⟩, hq1⟩, hq2⟩ := hq
    exact ⟨fun h => hq1 (h ▸ h1), fun h => hq2 (h ▸ h1),
      fun h => hq1 (h ▸ h2), fun h => hq2 (h ▸ h2)⟩
  · intro h now st
    rfl

/-- Witness for `per_step_lock_discipline`: a locked level-3 pair is
absorbed silently; two acting pairs in one list have disjoint handles;
a concrete `afterUpdate` clears the locks. -/
theorem per_step_lock_discipline_wit :
    processPair lockedState (mercA, mercB) = lockedState ∧
      DisjointPairs (mercA, mercB) (venusA, venusB) ∧
      (afterUpdate 1000 0 (baseState [])).locked = ∅ :=
  ⟨per_step_lock_discipline.1 lockedState mercA mercB rfl rfl rfl rfl
      (Or.inl (by decide)),
   per_step_lock_discipline.2.1 (baseState [mercA, mercB, venusA, venusB])
      [] [] (mercA, mercB) (venusA, venusB) (by decide) (by decide),
   per_step_lock_discipline.2.2 1000 0 (baseState [])⟩

/-- Game-over is absorbing for a single deadline step. -/
lemma dlStep_absorb (h : ℚ) (dl : Option ℚ) (s : List Body × ℚ) :
    dlStep h (true, dl) s = (true, dl) := by
  simp [dlStep, checkDeadlineCore]

/-- Game-over is absorbing for a run of deadline steps. -/
lemma dlRun_absorb (h : ℚ) (dl : Option ℚ) (steps : List (List Body × ℚ)) :
    dlRun h (true, dl) steps = (true, dl) := by
  induction steps with
  | nil => rfl
  | cons s rest ih =>
    show dlRun h (dlStep h (true, dl) s) rest = (true, dl)
    rw [dlStep_absorb, ih]

/-- A violating step within the grace threshold keeps the timer running
and does not end the session. -/
lemma dlStep_stay (h t0 : ℚ) (s : List Body × ℚ) (ht : t0 ≠ 0)
    (hv : deadlineViolation h s.1 = true)
    (hle : ¬ t0 + DEADLINE_THRESHOLD_MS < s.2) :
    dlStep h (false, some t0) s = (false, some t0) := by
  have hnotfalsy : ¬((some t0 : Option ℚ) = none ∨ (some t0 : Option ℚ) = some 0) := by
    simp [ht]
  have hnotthr : ¬(((some t0 : Option ℚ)).getD 0 + DEADLINE_THRESHOLD_MS < s.2) := by
    simpa using hle
  show checkDeadlineCore h s.1 s.2 false (some t0) = (false, some t0)
  unfold checkDeadlineCore
  rw [if_neg (by simp), if_pos hv, if_neg hnotfalsy, if_neg hnotthr]

/-- A violating step strictly past the grace threshold ends the
session. -/
lemma dlStep_fire (h t0 : ℚ) (s : List Body × ℚ) (ht : t0 ≠ 0)
    (hv : deadlineViolation h s.1 = true)
    (hgt : t0 + DEADLINE_THRESHOLD_MS < s.2) :
    dlStep h (false, some t0) s = (true, some t0) := by
  have hnotfalsy : ¬((some t0 : Option ℚ) = none ∨ (some t0 : Option ℚ) = some 0) := by
    simp [ht]
  show checkDeadlineCore h s.1 s.2 false (some t0) = (true, some t0)
  unfold checkDeadlineCore
  rw [if_neg (by simp), if_pos hv, if_neg hnotfalsy, if_pos (by simpa using hgt)]

/-- A run of violating steps all within the threshold leaves the state
unchanged. -/
lemma dlRun_stay (h t0 : ℚ) (steps : List (List Body × ℚ)) (ht : t0 ≠ 0)
    (hs : ∀ s ∈ steps, deadlineViolation h s.1 = true ∧
      s.2 - t0 ≤ DEADLINE_THRESHOLD_MS) :
    dlRun h (false, some t0) steps = (false, some t0) := by
  induction steps with
  | nil => rfl
  | cons s rest ih =>
    obtain ⟨hv, hle⟩ := hs s (List.mem_cons_self s rest)
    show dlRun h (dlStep h (false, some t0) s) rest = (false, some t0)
    rw [dlStep_stay h t0 s ht hv (by linarith)]
    exact ih fun q hq => hs q (List.mem_cons_of_mem s hq)

/-- A run of violating steps one of which is strictly past the
threshold ends the session. -/
lemma dlRun_fire (h t0 : ℚ) (steps : List (List Body × ℚ)) (ht : t0 ≠ 0)
    (hv : ∀ s ∈ steps, deadlineViolation h s.1 = true)
    (hex : ∃ s ∈ steps, t0 + DEADLINE_THRESHOLD_MS < s.2) :
    (dlRun h (false, some t0) steps).1 = true := by
  induction steps with
  | nil =>
    obtain ⟨s, hs, _⟩ := hex
    exact absurd hs (List.not_mem_nil s)
  | cons s rest ih =>
    by_cases hbig : t0 + DEADLINE_THRESHOLD_MS < s.2
    · show (dlRun h (dlStep h (false, some t0) s) rest).1 = true
      rw [dlStep_fire h t0 s ht (hv s (List.mem_cons_self s rest)) hbig, dlRun_absorb]
    · show (dlRun h (dlStep h (false, some t0) s) rest).1 = true
      rw [dlStep_stay h t0 s ht (hv s (List.mem_cons_self s rest)) hbig]
      refine ih (fun q hq => hv q (List.mem_cons_of_mem s hq)) ?_
      obtain ⟨q, hq, hqt⟩ := hex
      rcases List.mem_cons.mp hq with rfl | hq'
      · exact absurd hqt hbig
      · exact ⟨q, hq', hqt⟩

/-- C6: starting with no grace timer running and positive step times,
(1) a continuous violation whose steps stay within the threshold of the
first violating step (boundary included) never sets game-over; (2) a
continuous violation with some step strictly past the threshold sets
game-over; (3) a step with no violating piece resets the grace timer to
none, whatever it was; (4) the next violating step after a reset starts
the grace period afresh from its own timestamp. -/
theorem deadline_grace_period :
    (∀ (h t0 : ℚ) (b0 : List Body) (steps : List (List Body × ℚ)),
        0 < t0 →
        deadlineViolation h b0 = true →
        (∀ s ∈ steps, deadlineViolation h s.1 = true ∧
          s.2 - t0 ≤ DEADLINE_THRESHOLD_MS) →
        (dlRun h (false, none) ((b0, t0) :: steps)).1 = false) ∧
    (∀ (h t0 : ℚ) (b0 : List Body) (steps : List (List Body × ℚ)),
        0 < t0 →
        deadlineViolation h b0 = true →
        (∀ s ∈ steps, deadlineViolation h s.1 = true) →
        (∃ s ∈ steps, t0 + DEADLINE_THRESHOLD_MS < s.2) →
        (dlRun h (false, none) ((b0, t0) :: steps)).1 = true) ∧
    (∀ (h now : ℚ) (bodies : List Body) (dl : Option ℚ),
        deadlineViolation h bodies = false →
        checkDeadlineCore h bodies now false dl = (false, none)) ∧
    (∀ (h now : ℚ) (bodies : List Body),
        deadlineViolation h bodies = true →
        checkDeadlineCore h bodies now false none = (false, some now)) := by
  have hfirst : ∀ (h t0 : ℚ) (b0 : List Body), deadlineViolation h b0 = true →
      dlStep h (false, none) (b0, t0) = (false, some t0) := by
    intro h t0 b0 hv
    show checkDeadlineCore h b0 t0 false none = (false, some t0)
    unfold checkDeadlineCore
    rw [if_neg (by simp), if_pos hv, if_pos (Or.inl rfl)]
  refine ⟨?_, ?_, ?_, ?_⟩
  · intro h t0 b0 steps ht0 hv hs
    show (dlRun h (dlStep h (false, none) (b0, t0)) steps).1 = false
    rw [hfirst h t0 b0 hv, dlRun_stay h t0 steps (by linarith) hs]
  · intro h t0 b0 steps ht0 hv hvs hex
    show (dlRun h (dlStep h (false, none) (b0, t0)) steps).1 = true
    rw [hfirst h t0 b0 hv]
    exact dlRun_fire h t0 steps (by linarith) hvs hex
  · intro h now bodies dl hnv
    unfold checkDeadlineCore
    rw [if_neg (by simp), if_neg (by simp [hnv])]
  · intro h now bodies hv
    unfold checkDeadlineCore
    rw [if_neg (by simp), if_pos hv, if_pos (Or.inl rfl)]

/-- Witness for `deadline_grace_period` at a height-1000 board with one
concrete violating piece. -/
theorem deadline_grace_period_wit :
    (dlRun 1000 (false, none) [([highPiece], 100), ([highPiece], 1600)]).1 = false ∧
      (dlRun 1000 (false, none) [([highPiece], 100), ([highPiece], 1601)]).1 = true ∧
      checkDeadlineCore 1000 [] 5 false (some 42) = (false, none) ∧
      checkDeadlineCore 1000 [highPiece] 7 false none = (false, some 7) := by
  have hv : deadlineViolation 1000 [highPiece] = true := by
    norm_num [deadlineViolation, highPiece, DEADLINE_RATIO]
  refine ⟨?_, ?_, ?_, ?_⟩
  · refine deadline_grace_period.1 1000 100 [highPiece] [([highPiece], 1600)]
      (by norm_num) hv ?_
    intro s hs
    rw [List.mem_singleton] at hs
    subst hs
    exact ⟨hv, by norm_num [DEADLINE_THRESHOLD_MS]⟩
  · refine deadline_grace_period.2.1 1000 100 [highPiece] [([highPiece], 1601)]
      (by norm_num) hv ?_ ?_
    · intro s hs
      rw [List.mem_singleton] at hs
      subst hs
      exact hv
    · exact ⟨([highPiece], 1601), List.mem_singleton.mpr rfl,
        by norm_num [DEADLINE_THRESHOLD_MS]⟩
  · exact deadline_grace_period.2.2.1 1000 5 [] (some 42) (by simp [deadlineViolation])
  · exact deadline_grace_period.2.2.2 1000 7 [highPiece] hv

/-- The boundary-sound branch never emits a domain event. -/
lemma soundPart_events (st : GameState) (a b : Body) :
    (soundPart st a b).events = st.events := by
  rcases soundPart_cases st a b with h | ⟨i, h⟩
  · rw [h]
  · rw [h]
    rfl

/-- Processing one pair adds at most that pair's two ids to the lock
set. -/
lemma processPair_locked_subset (st : GameState) (p : Body × Body) :
    (processPair st p).locked ⊆ insert p.2.id (insert p.1.id st.locked) := by
  have hsl := soundPart_locked st p.1 p.2
  have hbase : st.locked ⊆ insert p.2.id (insert p.1.id st.locked) :=
    fun x hx => Finset.mem_insert_of_mem (Finset.mem_insert_of_mem hx)
  simp only [processPair]
  split
  · split
    · split
      · show insert p.2.id (insert p.1.id (soundPart st p.1 p.2).locked) ⊆ _
        rw [hsl]
      · rw [hsl]
        exact hbase
    · split
      · split
        · show insert p.2.id (insert p.1.id (soundPart st p.1 p.2).locked) ⊆ _
          rw [hsl]
        · rw [hsl]
          exact hbase
      · rw [hsl]
        exact hbase
  · rw [hsl]
    exact hbase

/-- The domain events one pair emits: exactly `pairEvents` of the lock
set at that moment. -/
lemma processPair_events (st : GameState) (p : Body × Body) :
    (processPair st p).events = st.events ++ pairEvents st.locked p := by
  have hse := soundPart_events st p.1 p.2
  have hsl := soundPart_locked st p.1 p.2
  simp only [processPair]
  by_cases h1 : p.1.planet.isSome = true ∧ p.2.planet.isSome = true
  · by_cases h11 : p.1.planet = some 11 ∧ p.2.planet = some 11
    · by_cases hlk : p.1.id ∉ st.locked ∧ p.2.id ∉ st.locked
      · rw [if_pos h1, if_pos h11, if_pos (by rw [hsl]; exact hlk)]
        show (soundPart st p.1 p.2).events ++ [.megaMerge BLACK_HOLE_BONUS] = _
        rw [hse]
        congr 1
        rw [pairEvents, if_pos ?_, eventOf, if_pos h11]
        simp [pairEligible, h1.1, h1.2, h11.1, h11.2, hlk.1, hlk.2]
      · rw [if_pos h1, if_pos h11, if_neg (by rw [hsl]; exact hlk)]
        rw [hse]
        have : pairEligible st.locked p = false := by
          rw [Classical.not_and_iff_or_not_not] at hlk
          rcases hlk with h | h <;> simp [pairEligible, not_not.mp h]
        rw [pairEvents, this]
        simp
    · by_cases heq : p.1.planet = p.2.planet ∧ p.1.planet.getD 0 < 11
      · by_cases hlk : p.1.id ∉ st.locked ∧ p.2.id ∉ st.locked
        · rw [if_pos h1, if_neg h11, if_pos heq, if_pos (by rw [hsl]; exact hlk)]
          show (soundPart st p.1 p.2).events ++
              [.merge (p.1.planet.getD 0 + 1) (scoreValue (p.1.planet.getD 0 + 1))] = _
          rw [hse]
          congr 1
          rw [pairEvents, if_pos ?_, eventOf, if_neg h11]
          simp only [pairEligible, Bool.and_eq_true, decide_eq_true_eq, Bool.or_eq_true]
          exact ⟨⟨⟨⟨h1.1, h1.2⟩, Or.inr ⟨heq.1, heq.2⟩⟩, hlk.1⟩, hlk.2⟩
        · rw [if_pos h1, if_neg h11, if_pos heq, if_neg (by rw [hsl]; exact hlk)]
          rw [hse]
          have : pairEligible st.locked p = false := by
            rw [Classical.not_and_iff_or_not_not] at hlk
            rcases hlk with h | h <;> simp [pairEligible, not_not.mp h]
          rw [pairEvents, this]
          simp
      · rw [if_pos h1, if_neg h11, if_neg heq, hse]
        have : pairEligible st.locked p = false := by
          simp only [pairEligible]
          rw [Classical.not_and_iff_or_not_not] at h11 heq
          cases h11 with
          | inl h =>
            cases heq with
            | inl h' => simp [h, h']
            | inr h' => simp [h, h']
          | inr h =>
            cases heq with
            | inl h' => simp [h, h']
            | inr h' => simp [h, h']
        rw [pairEvents, this]
        simp
  · rw [if_neg h1, hse]
    have : pairEligible st.locked p = false := by
      rw [Classical.not_and_iff_or_not_not] at h1
      rcases h1 with h | h <;>
        simp [pairEligible, Bool.not_eq_true _ ▸ h]
    rw [pairEvents, this]
    simp

/-- Pair eligibility only inspects the lock set through the pair's own
two ids. -/
lemma pairEligible_congr (L L' : Finset ℕ) (p : Body × Body)
    (h1 : p.1.id ∈ L ↔ p.1.id ∈ L') (h2 : p.2.id ∈ L ↔ p.2.id ∈ L') :
    pairEligible L p = pairEligible L' p := by
  have e1 : (p.1.id ∉ L) = (p.1.id ∉ L') := by
    rw [eq_iff_iff]
    exact not_congr h1
  have e2 : (p.2.id ∉ L) = (p.2.id ∉ L') := by
    rw [eq_iff_iff]
    exact not_congr h2
  simp only [pairEligible, e1, e2]

/-- With pairwise-disjoint handles, a step's events decompose as an
independent contribution per pair (relative to the initial lock set). -/
lemma processPairs_events_decompose (pairs : List (Body × Body)) (st : GameState)
    (L0 : Finset ℕ)
    (hiff : ∀ p ∈ pairs, (p.1.id ∈ st.locked ↔ p.1.id ∈ L0) ∧
      (p.2.id ∈ st.locked ↔ p.2.id ∈ L0))
    (hdisj : pairs.Pairwise DisjointPairs) :
    (processPairs st pairs).events = st.events ++ pairs.flatMap (pairEvents L0) := by
  induction pairs generalizing st with
  | nil => simp [processPairs]
  | cons p rest ih =>
    have hp := hiff p (List.mem_cons_self p rest)
    have hpe : pairEvents st.locked p = pairEvents L0 p := by
      rw [pairEvents, pairEvents, pairEligible_congr st.locked L0 p hp.1 hp.2]
    have hstep : (processPair st p).events = st.events ++ pairEvents L0 p := by
      rw [processPair_events, hpe]
    have hiff' : ∀ q ∈ rest, (q.1.id ∈ (processPair st p).locked ↔ q.1.id ∈ L0) ∧
        (q.2.id ∈ (processPair st p).locked ↔ q.2.id ∈ L0) := by
      intro q hq
      have hd : DisjointPairs p q := (List.pairwise_cons.mp hdisj).1 q hq
      have hsub := processPair_locked_subset st p
      have hmono := processPair_locked_mono st p
      have key : ∀ i : ℕ, i ≠ p.1.id → i ≠ p.2.id →
          (i ∈ (processPair st p).locked ↔ i ∈ st.locked) := by
        intro i hi1 hi2
        constructor
        · intro hmem
          rcases Finset.mem_insert.mp (hsub hmem) with h | h
          · exact absurd h hi2
          rcases Finset.mem_insert.mp h with h' | h'
          · exact absurd h' hi1
          · exact h'
        · exact fun hmem => hmono hmem
      exact ⟨(key q.1.id (Ne.symm hd.1) (Ne.symm hd.2.2.1)).trans (hiff q (List.mem_cons_of_mem p hq)).1,
        (key q.2.id (Ne.symm hd.2.1) (Ne.symm hd.2.2.2)).trans (hiff q (List.mem_cons_of_mem p hq)).2⟩
    have hdisj' : rest.Pairwise DisjointPairs := (List.pairwise_cons.mp hdisj).2
    show (processPairs (processPair st p) rest).events = _
    rw [ih (processPair st p) hiff' hdisj', hstep, List.flatMap_cons, List.append_assoc]

/-- C7 (amended): for a pair list in which no body handle occurs in two
different pairs, every permutation of the list produces the same
multiset of domain events (same merges and mega-merges with the same
levels and score contributions); when a handle is shared between pairs
the greedy lock discipline makes the outcome order-dependent, as the
counterexample shows. -/
theorem disjoint_pairs_events_order_invariant (st : GameState)
    (pairs pairs' : List (Body × Body)) (hperm : pairs.Perm pairs')
    (hdisj : pairs.Pairwise DisjointPairs) :
    Multiset.ofList (processPairs st pairs).events =
      Multiset.ofList (processPairs st pairs').events := by
  have hsymm : ∀ {p q : Body × Body}, DisjointPairs p q → DisjointPairs q p := by
    intro p q h
    exact ⟨Ne.symm h.1, Ne.symm h.2.2.1, Ne.symm h.2.1, Ne.symm h.2.2.2⟩
  have hdisj' : pairs'.Pairwise DisjointPairs :=
    (hperm.pairwise_iff fun h => hsymm h).mp hdisj
  rw [processPairs_events_decompose pairs st st.locked
      (fun p _ => ⟨Iff.rfl, Iff.rfl⟩) hdisj,
    processPairs_events_decompose pairs' st st.locked
      (fun p _ => ⟨Iff.rfl, Iff.rfl⟩) hdisj']
  exact Quot.sound ((hperm.flatMap_right (pairEvents st.locked)).append_left st.events)

/-- Witness for `disjoint_pairs_events_order_invariant`: two disjoint
level-3 pairs processed in either order emit the same event multiset. -/
theorem disjoint_pairs_events_order_invariant_wit :
    Multiset.ofList (processPairs (baseState [mercA, mercB, mercC, mercD])
        [(mercA, mercB), (mercC, mercD)]).events =
      Multiset.ofList (processPairs (baseState [mercA, mercB, mercC, mercD])
        [(mercC, mercD), (mercA, mercB)]).events :=
  disjoint_pairs_events_order_invariant (baseState [mercA, mercB, mercC, mercD])
    [(mercA, mercB), (mercC, mercD)] [(mercC, mercD), (mercA, mercB)]
    (@List.perm_append_comm _ [(mercA, mercB)] [(mercC, mercD)])
    (by decide)

/-- C7 (counterexample): the pair list `[(A,B),(C,D),(B,C)]` over four
level-3 pieces produces two merge events, but its permutation
`[(B,C),(A,B),(C,D)]` produces only one (B and C lock A's and D's
partners away), so the final multiset of domain events depends on the
delivery order. -/
theorem pair_order_changes_events_cex :
    ([(mercB, mercC), (mercA, mercB), (mercC, mercD)] : List (Body × Body)).Perm
        [(mercA, mercB), (mercC, mercD), (mercB, mercC)] ∧
      Multiset.ofList (processPairs (baseState [mercA, mercB, mercC, mercD])
          [(mercA, mercB), (mercC, mercD), (mercB, mercC)]).events ≠
        Multiset.ofList (processPairs (baseState [mercA, mercB, mercC, mercD])
          [(mercB, mercC), (mercA, mercB), (mercC, mercD)]).events :=
  ⟨@List.perm_append_comm _ [(mercB, mercC)] [(mercA, mercB), (mercC, mercD)],
   by decide⟩

/-- C8 (amended): `resetGame` from a game-over state zeroes the score,
empties the discovery set, resets the bag's anti-repeat memory and draws
the fresh next/current pair from the reset bag, clears game-over, the
deadline timer and the black-hole queue, and removes every non-static
body — while `hiScore` and the flash and score-pop queues are left
exactly as they were (the source does not clear those two queues). -/
theorem resetGame_state_amended (f : ℕ → ℕ) (st : GameState)
    (_hgo : st.isGameOver = true) :
    (resetGame f st).score = 0 ∧
      (resetGame f st).discovered = (∅ : Finset ℕ) ∧
      (resetGame f st).isGameOver = false ∧
      (resetGame f st).hiScore = st.hiScore ∧
      (∀ b ∈ (resetGame f st).bodies, b.isStatic = true) ∧
      (resetGame f st).blackHoleEffects = [] ∧
      (resetGame f st).flashes = st.flashes ∧
      (resetGame f st).scorePops = st.scorePops ∧
      (st.bag.reset f).lastItem = none ∧
      (resetGame f st).nextLevel = ((st.bag.reset f).pull f).1 ∧
      (resetGame f st).currentLevel = (((st.bag.reset f).pull f).2.pull f).1 ∧
      (resetGame f st).dlStart = none := by
  refine ⟨rfl, rfl, rfl, rfl, ?_, rfl, rfl, rfl, rfl, rfl, rfl, rfl⟩
  intro b hb
  exact (List.mem_filter.mp hb).2

/-- Witness for `resetGame_state_amended` at the concrete game-over
state. -/
theorem resetGame_state_amended_wit :
    (resetGame id gameOverState).score = 0 ∧
      (resetGame id gameOverState).discovered = (∅ : Finset ℕ) ∧
      (resetGame id gameOverState).isGameOver = false ∧
      (resetGame id gameOverState).hiScore = gameOverState.hiScore ∧
      (∀ b ∈ (resetGame id gameOverState).bodies, b.isStatic = true) ∧
      (resetGame id gameOverState).blackHoleEffects = [] ∧
      (resetGame id gameOverState).flashes = gameOverState.flashes ∧
      (resetGame id gameOverState).scorePops = gameOverState.scorePops ∧
      (gameOverState.bag.reset id).lastItem = none ∧
      (resetGame id gameOverState).nextLevel = ((gameOverState.bag.reset id).pull id).1 ∧
      (resetGame id gameOverState).currentLevel =
        (((gameOverState.bag.reset id).pull id).2.pull id).1 ∧
      (resetGame id gameOverState).dlStart = none :=
  resetGame_state_amended id gameOverState rfl

/-- Every entry of the unshuffled weighted multiset is a candidate
level. -/
lemma baseItems_ok : ∀ v ∈ baseItems, v ∈ NEXT_CANDIDATES := by decide

/-- A swap of two in-range positions introduces no new elements. -/
lemma mem_swapIdx (l : List ℕ) (i j : ℕ) (hi : i < l.length) (hj : j < l.length)
    (v : ℕ) (hv : v ∈ swapIdx l i j) : v ∈ l := by
  unfold swapIdx at hv
  rcases List.mem_or_eq_of_mem_set hv with hv' | rfl
  · rcases List.mem_or_eq_of_mem_set hv' with hv'' | rfl
    · exact hv''
    · rw [List.getD_eq_getElem l 0 hj]
      exact List.getElem_mem hj
  · rw [List.getD_eq_getElem l 0 hi]
    exact List.getElem_mem hi

/-- The shuffle loop introduces no new elements. -/
lemma shuffleGo_mem (f : ℕ → ℕ) (i : ℕ) (l : List ℕ) (hi : i < l.length)
    (v : ℕ) (hv : v ∈ shuffleGo f i l) : v ∈ l := by
  induction i generalizing l with
  | zero =>
    rw [shuffleGo] at hv
    exact hv
  | succ k ih =>
    rw [shuffleGo] at hv
    have hlen : (swapIdx l (k + 1) (f (k + 1) % (k + 2))).length = l.length := by
      unfold swapIdx
      simp [List.length_set]
    have hv' := ih (swapIdx l (k + 1) (f (k + 1) % (k + 2))) (by omega) hv
    have hj : f (k + 1) % (k + 2) < l.length :=
      lt_of_lt_of_le (Nat.mod_lt _ (Nat.succ_pos _)) (by omega)
    exact mem_swapIdx l (k + 1) (f (k + 1) % (k + 2)) hi hj v hv'

/-- The shuffle loop on the empty list stays empty. -/
lemma shuffleGo_nil (f : ℕ → ℕ) (i : ℕ) : shuffleGo f i [] = [] := by
  induction i with
  | zero => rw [shuffleGo]
  | succ k ih =>
    rw [shuffleGo]
    exact ih

/-- `shuffle` introduces no new elements. -/
lemma shuffle_mem (f : ℕ → ℕ) (l : List ℕ) (v : ℕ) (hv : v ∈ shuffle f l) : v ∈ l := by
  unfold shuffle at hv
  rcases Nat.eq_zero_or_pos l.length with h0 | hpos
  · rw [List.length_eq_zero.mp h0] at hv ⊢
    rw [shuffleGo_nil] at hv
    exact hv
  · exact shuffleGo_mem f (l.length - 1) l (by omega) v hv

/-- A refilled bag holds only candidate levels. -/
lemma refill_ok (f : ℕ → ℕ) (b : PlanetBag) : BagOK (b.refill f) :=
  fun v hv => baseItems_ok v (shuffle_mem f baseItems v hv)

/-- The refill-if-empty prelude preserves the candidate invariant. -/
lemma prePull_ok (f : ℕ → ℕ) (b : PlanetBag) (h : BagOK b) : BagOK (b.prePull f) := by
  unfold PlanetBag.prePull
  split
  · exact refill_ok f b
  · exact h

/-- A pull from an invariant-respecting bag returns a candidate level
and preserves the invariant. -/
lemma pull_ok (f : ℕ → ℕ) (b : PlanetBag) (h : BagOK b) :
    (b.pull f).1 ∈ NEXT_CANDIDATES ∧ BagOK (b.pull f).2 := by
  have hpre : BagOK (b.prePull f) := prePull_ok f b h
  have hne : (b.prePull f).items ≠ [] := prePull_ne_nil f b
  have hlen : 0 < (b.prePull f).items.length := List.length_pos.mpr hne
  have hidx : (if 1 < (b.prePull f).items.length ∧
      some ((b.prePull f).items.getD 0 0) = (b.prePull f).lastItem then 1 else 0) <
      (b.prePull f).items.length := by
    split
    · next hc => exact hc.1
    · exact hlen
  constructor
  · show (b.prePull f).items.getD _ 0 ∈ NEXT_CANDIDATES
    apply hpre
    rw [List.getD_eq_getElem _ 0 hidx]
    exact List.getElem_mem hidx
  · intro v hv
    exact hpre v (List.eraseIdx_subset _ _ hv)

/-- The boundary-sound branch never touches the piece-queue levels or
the bag. -/
lemma soundPart_levels (st : GameState) (a b : Body) :
    (soundPart st a b).currentLevel = st.currentLevel ∧
      (soundPart st a b).nextLevel = st.nextLevel ∧
      (soundPart st a b).bag = st.bag := by
  rcases soundPart_cases st a b with h | ⟨i, h⟩ <;> rw [h] <;> exact ⟨rfl, rfl, rfl⟩

/-- Collision resolution never touches the piece-queue levels or the
bag. -/
lemma processPair_levels (st : GameState) (p : Body × Body) :
    (processPair st p).currentLevel = st.currentLevel ∧
      (processPair st p).nextLevel = st.nextLevel ∧
      (processPair st p).bag = st.bag := by
  have hs := soundPart_levels st p.1 p.2
  simp only [processPair]
  split
  · split
    · split
      · exact hs
      · exact hs
    · split
      · split
        · exact hs
        · exact hs
      · exact hs
  · exact hs

/-- A whole step's pair list never touches the piece-queue levels or the
bag. -/
lemma processPairs_levels (pairs : List (Body × Body)) (st : GameState) :
    (processPairs st pairs).currentLevel = st.currentLevel ∧
      (processPairs st pairs).nextLevel = st.nextLevel ∧
      (processPairs st pairs).bag = st.bag := by
  induction pairs generalizing st with
  | nil => exact ⟨rfl, rfl, rfl⟩
  | cons p rest ih =>
    have h1 := processPair_levels st p
    have h2 := ih (processPair st p)
    exact ⟨h2.1.trans h1.1, h2.2.1.trans h1.2.1, h2.2.2.trans h1.2.2⟩

/-- C10: in every reachable session state the pending current and next
levels are candidate levels (elements of `{1,2,3,4,5}`) and every item
still in the bag is a candidate level; consequently the piece spawned by
a player drop — whose level is always the pending `currentLevel` — has a
candidate level, so levels 6 and above can only enter the world as merge
results. -/
theorem drop_levels_in_candidates (st : GameState) (hr : Reach st) :
    st.currentLevel ∈ NEXT_CANDIDATES ∧ st.nextLevel ∈ NEXT_CANDIDATES ∧
      BagOK st.bag ∧
      ∀ (f : ℕ → ℕ) (x : ℚ), ∃ nb : Body,
        (dropPlanet f x st).bodies = st.bodies ++ [nb] ∧
        nb.planet = some st.currentLevel ∧ nb.isStatic = false := by
  have key : st.currentLevel ∈ NEXT_CANDIDATES ∧ st.nextLevel ∈ NEXT_CANDIDATES ∧
      BagOK st.bag := by
    induction hr with
    | init f g g' hs =>
      have h0 : BagOK (PlanetBag.mk0 f) := refill_ok f _
      have h1 := pull_ok g _ h0
      have h2 := pull_ok g' _ h1.2
      exact ⟨h2.1, h1.1, h2.2⟩
    | drop f x st' _ ih =>
      have hp := pull_ok f st'.bag ih.2.2
      exact ⟨ih.2.1, hp.1, hp.2⟩
    | reset f st' _ ih =>
      have h0 : BagOK (st'.bag.reset f) := refill_ok f _
      have h1 := pull_ok f _ h0
      have h2 := pull_ok f _ h1.2
      exact ⟨h2.1, h1.1, h2.2⟩
    | stepPairs pairs st' _ ih =>
      have h := processPairs_levels pairs st'
      rw [h.1, h.2.1, h.2.2]
      exact ih
    | stepAfter h now st' _ ih =>
      exact ih
  refine ⟨key.1, key.2.1, key.2.2, ?_⟩
  intro f x
  exact ⟨_, rfl, rfl, rfl⟩

/-- Witness for `drop_levels_in_candidates` at a fresh session built
with the identity shuffle oracle. -/
theorem drop_levels_in_candidates_wit :
    (initGame id id id 0).currentLevel ∈ NEXT_CANDIDATES ∧
      (initGame id id id 0).nextLevel ∈ NEXT_CANDIDATES ∧
      BagOK (initGame id id id 0).bag ∧
      ∀ (f : ℕ → ℕ) (x : ℚ), ∃ nb : Body,
        (dropPlanet f x (initGame id id id 0)).bodies =
          (initGame id id id 0).bodies ++ [nb] ∧
        nb.planet = some (initGame id id id 0).currentLevel ∧ nb.isStatic = false :=
  drop_levels_in_candidates (initGame id id id 0) (Reach.init id id id 0)

end PlanetGame
